import Mathlib

/-!
Verification of `browser_use/agent/message_manager/screenshot_manager.py`.

The Python module persists per-step artifacts (screenshots, conversation
transcripts) of an agent session and rebuilds a screenshot index file.  We give
a shallow embedding: the filesystem is an explicit state value, fallible
filesystem primitives are driven by an environment of failure flags, Python
`try/except` blocks become `Except` computations that the wrapping function
catches, and the string manipulation (f-strings, `str.split`, `int(...)`,
`"\n".join`, `json.dumps(..., indent=2)`) is modelled character-for-character.
-/

/- ### Decimal rendering of numbers (Python `str(int)` for non-negative input) -/

/-- Decimal digits of `n`, most significant first; embeds Python `str(n)` for
a non-negative integer `n`. -/
def natDigits (n : Nat) : List Char :=
  if _h : n < 10 then [Nat.digitChar n]
  else natDigits (n / 10) ++ [Nat.digitChar (n % 10)]
decreasing_by exact Nat.div_lt_self (by omega) (by decide)

def natStr (n : Nat) : String := String.mk (natDigits n)

/-- Python `str(i)` on an arbitrary integer. -/
def intStr : Int → String
  | .ofNat n => natStr n
  | .negSucc n => "-" ++ natStr (n + 1)

theorem digitChar_spec : ∀ k, k < 10 → (Nat.digitChar k).isDigit = true ∧
    (Nat.digitChar k).toNat = 48 + k := by decide

theorem natDigits_ne_nil (n : Nat) : natDigits n ≠ [] := by
  rw [natDigits]
  split
  · simp
  · simp

theorem natDigits_all_digit (n : Nat) : ∀ c ∈ natDigits n, c.isDigit = true := by
  induction n using Nat.strong_induction_on with
  | _ n ih =>
    rw [natDigits]
    split
    · next h =>
      intro c hc
      simp only [List.mem_singleton] at hc
      subst hc
      exact (digitChar_spec n h).1
    · next h =>
      intro c hc
      rcases List.mem_append.mp hc with h1 | h2
      · exact ih (n / 10) (Nat.div_lt_self (by omega) (by decide)) c h1
      · simp only [List.mem_singleton] at h2
        subst h2
        exact (digitChar_spec (n % 10) (Nat.mod_lt _ (by decide))).1

/-- Reading decimal digits back, Python `int(...)` on a digit string. -/
def digitsFold (cs : List Char) : Nat :=
  cs.foldl (fun a c => 10 * a + (c.toNat - 48)) 0

theorem digitsFold_go (cs : List Char) (a : Nat) :
    cs.foldl (fun a c => 10 * a + (c.toNat - 48)) a =
      a * 10 ^ cs.length + cs.foldl (fun a c => 10 * a + (c.toNat - 48)) 0 := by
  induction cs generalizing a with
  | nil => simp
  | cons c cs ih =>
    simp only [List.foldl_cons, List.length_cons]
    rw [ih (10 * a + (c.toNat - 48)), ih (10 * 0 + (c.toNat - 48))]
    ring

theorem digitsFold_natDigits (n : Nat) : digitsFold (natDigits n) = n := by
  induction n using Nat.strong_induction_on with
  | _ n ih =>
    rw [natDigits]
    split
    · next h =>
      simp only [digitsFold, List.foldl_cons, List.foldl_nil]
      have := (digitChar_spec n h).2
      omega
    · next h =>
      have hlt : n / 10 < n := Nat.div_lt_self (by omega) (by decide)
      have hrec := ih (n / 10) hlt
      simp only [digitsFold, List.foldl_append, List.foldl_cons, List.foldl_nil] at *
      rw [digitsFold_go]
      have := (digitChar_spec (n % 10) (Nat.mod_lt _ (by decide))).2
      omega

theorem natDigits_injective {m n : Nat} (h : natDigits m = natDigits n) : m = n := by
  have := digitsFold_natDigits m
  rw [h, digitsFold_natDigits] at this
  omega

theorem natStr_injective {m n : Nat} (h : natStr m = natStr n) : m = n := by
  apply natDigits_injective
  have := congrArg String.data h
  simpa [natStr] using this

/- ### Python `str.split(sep)` for a one-character separator -/

/-- Embeds Python `s.split(c)` for a single-character separator `c`:
`"".split(c) = [""]`, adjacent separators produce empty pieces. -/
def splitOnChar (c : Char) : List Char → List (List Char)
  | [] => [[]]
  | x :: xs =>
    if x = c then [] :: splitOnChar c xs
    else
      match splitOnChar c xs with
      | [] => [[x]]
      | p :: ps => (x :: p) :: ps

theorem splitOnChar_ne_nil (c : Char) (l : List Char) : splitOnChar c l ≠ [] := by
  cases l with
  | nil => simp [splitOnChar]
  | cons x xs =>
    rw [splitOnChar]
    split
    · simp
    · split <;> simp

theorem splitOnChar_of_not_mem {c : Char} {l : List Char} (h : c ∉ l) :
    splitOnChar c l = [l] := by
  induction l with
  | nil => rfl
  | cons x xs ih =>
    rw [splitOnChar]
    have hx : x ≠ c := fun he => h (he ▸ List.mem_cons_self x xs)
    rw [if_neg hx, ih (fun hm => h (List.mem_cons_of_mem x hm))]

theorem splitOnChar_length_ge_two {c : Char} {l : List Char} (h : c ∈ l) :
    2 ≤ (splitOnChar c l).length := by
  induction l with
  | nil => cases h
  | cons x xs ih =>
    rw [splitOnChar]
    split
    · have : 1 ≤ (splitOnChar c xs).length :=
        List.length_pos.mpr (splitOnChar_ne_nil c xs)
      simp only [List.length_cons]
      omega
    · next hx =>
      have hm : c ∈ xs := by
        rcases List.mem_cons.mp h with h1 | h2
        · exact absurd h1.symm hx
        · exact h2
      have := ih hm
      match hs : splitOnChar c xs with
      | [] => exact absurd hs (splitOnChar_ne_nil c xs)
      | p :: ps =>
        rw [hs] at this
        simp only [List.length_cons] at this ⊢
        omega

/-- Python `s.split(c)[-1]`. -/
def pyLastSplit (c : Char) (l : List Char) : List Char :=
  (splitOnChar c l).getLastD []

/-- Python `s.split(c)[0]`. -/
def pyHeadSplit (c : Char) (l : List Char) : List Char :=
  (splitOnChar c l).headD []

theorem pyLastSplit_append {c : Char} (xs : List Char) {ys : List Char}
    (h : c ∉ ys) : pyLastSplit c (xs ++ c :: ys) = ys := by
  induction xs with
  | nil =>
    simp only [List.nil_append, pyLastSplit, splitOnChar, if_pos rfl,
      splitOnChar_of_not_mem h]
    rfl
  | cons x xs ih =>
    simp only [List.cons_append, pyLastSplit, splitOnChar]
    split
    · rw [List.getLastD_cons]
      simpa [pyLastSplit] using ih
    · have hmem : c ∈ xs ++ c :: ys := List.mem_append_right _ (List.mem_cons_self c ys)
      have hlen := splitOnChar_length_ge_two hmem
      match hs : splitOnChar c (xs ++ c :: ys) with
      | [] => exact absurd hs (splitOnChar_ne_nil c _)
      | [p] => rw [hs] at hlen; simp at hlen
      | p :: q :: ps =>
        show ((x :: p) :: q :: ps).getLastD [] = ys
        simp only [pyLastSplit, hs] at ih
        rw [List.getLastD_cons, List.getLastD_cons]
        rw [List.getLastD_cons, List.getLastD_cons] at ih
        exact ih

theorem pyHeadSplit_append {c : Char} {xs : List Char} (ys : List Char)
    (h : c ∉ xs) : pyHeadSplit c (xs ++ c :: ys) = xs := by
  induction xs with
  | nil => simp [pyHeadSplit, splitOnChar]
  | cons x xs ih =>
    have hx : x ≠ c := fun he => h (he ▸ List.mem_cons_self x xs)
    simp only [List.cons_append, pyHeadSplit, splitOnChar, if_neg hx]
    have ihh := ih (fun hm => h (List.mem_cons_of_mem x hm))
    match hs : splitOnChar c (xs ++ c :: ys) with
    | [] => exact absurd hs (splitOnChar_ne_nil c _)
    | p :: ps =>
      simp only [pyHeadSplit, hs, List.headD_cons] at ihh
      simp [ihh]

/- ### Python `int(str)` -/

/-- Value of a non-empty all-digit character list, else `none`. -/
def digitsVal? (cs : List Char) : Option Nat :=
  if cs ≠ [] ∧ cs.all (fun c => c.isDigit) then some (digitsFold cs) else none

/-- Embeds Python `int(s)`: optional surrounding spaces, optional sign, then a
non-empty run of decimal digits; anything else raises `ValueError`, modelled
as `none`. -/
def pyInt? (cs : List Char) : Option Int :=
  let t := ((cs.dropWhile (fun c => c = ' ')).reverse.dropWhile (fun c => c = ' ')).reverse
  if t.head? = some '-' then (digitsVal? t.tail).map (fun n => -(n : Int))
  else if t.head? = some '+' then (digitsVal? t.tail).map (fun n => (n : Int))
  else (digitsVal? t).map (fun n => (n : Int))

theorem dropWhile_space_of_digits {cs : List Char}
    (h : ∀ c ∈ cs, c.isDigit = true) : cs.dropWhile (fun c => c = ' ') = cs := by
  cases cs with
  | nil => rfl
  | cons c cs =>
    rw [List.dropWhile_cons]
    have : c.isDigit = true := h c (List.mem_cons_self c cs)
    have hc : c ≠ ' ' := by
      intro he
      subst he
      simp [Char.isDigit] at this
    simp [hc]

theorem pyInt?_digits {cs : List Char} (hne : cs ≠ [])
    (h : ∀ c ∈ cs, c.isDigit = true) : pyInt? cs = some (digitsFold cs) := by
  have hrev : ∀ c ∈ cs.reverse, c.isDigit = true := fun c hc =>
    h c (List.mem_reverse.mp hc)
  rw [pyInt?]
  simp only [dropWhile_space_of_digits h, dropWhile_space_of_digits hrev,
    List.reverse_reverse]
  match cs, hne with
  | c :: cs, _ =>
    have hd : c.isDigit = true := h c (List.mem_cons_self c cs)
    have h1 : c ≠ '-' := by intro he; subst he; simp [Char.isDigit] at hd
    have h2 : c ≠ '+' := by intro he; subst he; simp [Char.isDigit] at hd
    have hne1 : (c :: cs).head? ≠ some '-' := by simp [h1]
    have hne2 : (c :: cs).head? ≠ some '+' := by simp [h2]
    rw [if_neg hne1, if_neg hne2, digitsVal?,
      if_pos ⟨by simp, by simpa [List.all_eq_true] using h⟩]
    rfl

theorem pyInt?_natDigits (n : Nat) : pyInt? (natDigits n) = some (n : Int) := by
  rw [pyInt?_digits (natDigits_ne_nil n) (natDigits_all_digit n),
    digitsFold_natDigits]
  rfl

/- ### Artifact file names -/

/-- Embeds the f-string `f"screenshot_{agent_id}_{step_number}.png"`. -/
def screenshotFilename (agentId : String) (stepNumber : Nat) : String :=
  "screenshot_" ++ agentId ++ "_" ++ natStr stepNumber ++ ".png"

/-- Embeds the f-string `f"conversation_{agent_id}_{step_number}.txt"`. -/
def conversationFilename (agentId : String) (stepNumber : Nat) : String :=
  "conversation_" ++ agentId ++ "_" ++ natStr stepNumber ++ ".txt"

/-- Embeds the index sort key / step parse of `create_screenshot_index`:
`int(x.split("_")[-1].split(".")[0])`. -/
def screenshotSortKey? (name : String) : Option Int :=
  pyInt? (pyHeadSplit '.' (pyLastSplit '_' name.data))

theorem underscore_not_digit : ('_').isDigit = false := by decide

theorem screenshotFilename_data (agentId : String) (stepNumber : Nat) :
    (screenshotFilename agentId stepNumber).data =
      ("screenshot_".data ++ agentId.data) ++
        '_' :: (natDigits stepNumber ++ '.' :: "png".data) := by
  simp [screenshotFilename, natStr, String.data_append]

theorem sortKey_screenshotFilename (agentId : String) (stepNumber : Nat) :
    screenshotSortKey? (screenshotFilename agentId stepNumber) =
      some (stepNumber : Int) := by
  rw [screenshotSortKey?, screenshotFilename_data]
  have hlast : pyLastSplit '_'
      (("screenshot_".data ++ agentId.data) ++
        '_' :: (natDigits stepNumber ++ '.' :: "png".data)) =
      natDigits stepNumber ++ '.' :: "png".data := by
    apply pyLastSplit_append
    intro hmem
    rcases List.mem_append.mp hmem with h1 | h2
    · have := natDigits_all_digit stepNumber _ h1
      simp [Char.isDigit] at this
    · revert h2
      decide
  rw [hlast]
  have hhead : pyHeadSplit '.' (natDigits stepNumber ++ '.' :: "png".data) =
      natDigits stepNumber := by
    apply pyHeadSplit_append
    intro hmem
    have := natDigits_all_digit stepNumber _ hmem
    simp [Char.isDigit] at this
  rw [hhead, pyInt?_natDigits]

/- ### Injectivity of artifact names -/

theorem digits_underscore_inj {u u' v v' : List Char}
    (hu : ∀ c ∈ u, c.isDigit = true) (hu' : ∀ c ∈ u', c.isDigit = true)
    (h : u ++ '_' :: v = u' ++ '_' :: v') : u = u' ∧ v = v' := by
  have htake : ∀ (w x : List Char), (∀ c ∈ w, c.isDigit = true) →
      (w ++ '_' :: x).takeWhile (fun c => c.isDigit) = w := by
    intro w x hw
    induction w with
    | nil => simp [List.takeWhile_cons, underscore_not_digit]
    | cons a as ih =>
      have ha := hw a (List.mem_cons_self a as)
      simp only [List.cons_append, List.takeWhile_cons, ha, if_true]
      rw [ih (fun c hc => hw c (List.mem_cons_of_mem a hc))]
  have hdrop : ∀ (w x : List Char), (∀ c ∈ w, c.isDigit = true) →
      (w ++ '_' :: x).dropWhile (fun c => c.isDigit) = '_' :: x := by
    intro w x hw
    induction w with
    | nil => simp [List.dropWhile_cons, underscore_not_digit]
    | cons a as ih =>
      have ha := hw a (List.mem_cons_self a as)
      simp only [List.cons_append, List.dropWhile_cons, ha, if_true]
      exact ih (fun c hc => hw c (List.mem_cons_of_mem a hc))
  constructor
  · rw [← htake u v hu, ← htake u' v' hu', h]
  · have := congrArg (List.dropWhile (fun c => c.isDigit)) h
    rw [hdrop u v hu, hdrop u' v' hu'] at this
    exact List.cons_injective this

theorem affix_name_inj {pre suf : List Char} {a b : String} {m n : Nat}
    (h : pre ++ (a.data ++ '_' :: (natDigits m ++ suf)) =
      pre ++ (b.data ++ '_' :: (natDigits n ++ suf))) : a = b ∧ m = n := by
  have h1 : a.data ++ '_' :: (natDigits m ++ suf) =
      b.data ++ '_' :: (natDigits n ++ suf) := List.append_cancel_left h
  have h2 := congrArg List.reverse h1
  simp only [List.reverse_append, List.reverse_cons, List.append_assoc] at h2
  have h3 : (natDigits m).reverse ++ '_' :: a.data.reverse =
      (natDigits n).reverse ++ '_' :: b.data.reverse := by
    exact (List.append_right_inj suf.reverse).mp
      (by simpa [List.append_assoc] using h2)
  have h4 := digits_underscore_inj
    (fun c hc => natDigits_all_digit m c (List.mem_reverse.mp hc))
    (fun c hc => natDigits_all_digit n c (List.mem_reverse.mp hc)) h3
  refine ⟨?_, ?_⟩
  · apply String.ext
    exact List.reverse_injective h4.2
  · exact natDigits_injective (List.reverse_injective h4.1)

/- ### Python `"\n".join` -/

/-- Embeds Python `sep.join(lines)`. -/
def pyJoin (sep : String) : List String → String
  | [] => ""
  | [x] => x
  | x :: y :: xs => x ++ sep ++ pyJoin sep (y :: xs)

/- ### JSON values and `json.dumps(value, indent=2)` -/

/-- JSON values as produced by `json.loads` on a pydantic dump.  Numbers are
modelled as integers (the response objects serialized here carry no float
fields that the claims depend on). -/
inductive Json where
  | null
  | bool (b : Bool)
  | num (n : Int)
  | str (s : String)
  | arr (elems : List Json)
  | obj (fields : List (String × Json))

/-- Escape of one character inside a JSON string literal, following
`json.dumps` with its default `ensure_ascii=True`. -/
def jsonEscapeChar (c : Char) : List Char :=
  if c = '"' then ['\\', '"']
  else if c = '\\' then ['\\', '\\']
  else if c = '\n' then ['\\', 'n']
  else if c = '\r' then ['\\', 'r']
  else if c = '\t' then ['\\', 't']
  else if c.toNat = 8 then ['\\', 'b']
  else if c.toNat = 12 then ['\\', 'f']
  else if 32 ≤ c.toNat ∧ c.toNat ≤ 126 then [c]
  else if c.toNat < 65536 then
    '\\' :: 'u' :: [Nat.digitChar (c.toNat / 4096 % 16), Nat.digitChar (c.toNat / 256 % 16),
      Nat.digitChar (c.toNat / 16 % 16), Nat.digitChar (c.toNat % 16)]
  else
    let v := c.toNat - 65536
    let hi := 55296 + v / 1024
    let lo := 56320 + v % 1024
    '\\' :: 'u' :: [Nat.digitChar (hi / 4096 % 16), Nat.digitChar (hi / 256 % 16),
      Nat.digitChar (hi / 16 % 16), Nat.digitChar (hi % 16)] ++
    '\\' :: 'u' :: [Nat.digitChar (lo / 4096 % 16), Nat.digitChar (lo / 256 % 16),
      Nat.digitChar (lo / 16 % 16), Nat.digitChar (lo % 16)]

/-- A JSON string literal, double quotes included. -/
def jsonQuote (s : String) : String :=
  "\"" ++ String.mk ((s.data.map jsonEscapeChar).flatten) ++ "\""

def indentSpaces (lvl : Nat) : String := String.mk (List.replicate (2 * lvl) ' ')

mutual

/-- Embeds `json.dumps(v, indent=2)` rendered at nesting level `lvl`
(the call in the source is at level 0). -/
def jsonDump (lvl : Nat) : Json → String
  | .null => "null"
  | .bool true => "true"
  | .bool false => "false"
  | .num n => intStr n
  | .str s => jsonQuote s
  | .arr [] => "[]"
  | .arr (x :: xs) =>
    "[\n" ++ jsonDumpItems (lvl + 1) (x :: xs) ++ "\n" ++ indentSpaces lvl ++ "]"
  | .obj [] => "\x7b\x7d"
  | .obj (f :: fs) =>
    "\x7b\n" ++ jsonDumpFields (lvl + 1) (f :: fs) ++ "\n" ++ indentSpaces lvl ++ "\x7d"

def jsonDumpItems (lvl : Nat) : List Json → String
  | [] => ""
  | [x] => indentSpaces lvl ++ jsonDump lvl x
  | x :: y :: xs =>
    indentSpaces lvl ++ jsonDump lvl x ++ ",\n" ++ jsonDumpItems lvl (y :: xs)

def jsonDumpFields (lvl : Nat) : List (String × Json) → String
  | [] => ""
  | [(k, v)] => indentSpaces lvl ++ jsonQuote k ++ ": " ++ jsonDump lvl v
  | (k, v) :: f :: fs =>
    indentSpaces lvl ++ jsonQuote k ++ ": " ++ jsonDump lvl v ++ ",\n" ++
      jsonDumpFields lvl (f :: fs)

end

/- ### Collaborator inputs: messages, browser state, agent response -/

/-- A message as consumed here: a role label and plain text content
(`message.role`, `message.text` in the source). -/
structure BaseMessage where
  role : String
  text : String

/-- The slice of `BrowserStateSummary` that the module consumes: an optional
base64-encoded screenshot payload. -/
structure BrowserStateSummary where
  screenshot : Option String

/-- One field of the response object: pydantic tracks whether a field was
explicitly set; `model_dump_json(exclude_unset=True)` keeps only set fields. -/
structure RespField where
  name : String
  value : Json
  wasSet : Bool

/-- The response object (`AgentOutput`-like) as consumed here: an ordered
record of fields, each tagged with whether it was explicitly set. -/
structure AgentOutput where
  fields : List RespField

/-- Embeds `json.loads(response.model_dump_json(exclude_unset=True))`: the
JSON object holding exactly the explicitly-set fields, in declaration
order. -/
def modelDumpExcludeUnset (r : AgentOutput) : Json :=
  .obj ((r.fields.filter (fun f => f.wasSet)).map (fun f => (f.name, f.value)))

/- ### Filesystem state, failure environment, base64 -/

/-- A filesystem path as a list of components. -/
abbrev FPath := List String

/-- Contents of a file on disk: raw bytes (screenshots) or text written with
an explicitly chosen encoding (`none` = the library default). -/
inductive FData where
  | bin (bytes : List Nat)
  | txt (text : String) (encoding : Option String)
deriving DecidableEq

/-- The filesystem: which directories exist and the contents of each file. -/
structure FS where
  dirs : List FPath
  files : List (FPath × FData)
deriving DecidableEq

/-- Decides which filesystem primitives raise `OSError`; models permissions,
disk-full and similar external failure causes. -/
structure Env where
  mkdirFails : FPath → Bool
  writeFails : FPath → Bool

/-- The environment in which no filesystem call fails. -/
def envOk : Env := ⟨fun _ => false, fun _ => false⟩

/-- The Python exceptions that can cross an operation boundary here. -/
inductive PyErr where
  | mkdirErr (p : FPath)
  | writeErr (p : FPath)
  | binasciiErr
  | valueErr
deriving DecidableEq

def FS.fileAt (fs : FS) (p : FPath) : Option FData :=
  (fs.files.find? (fun e => e.1 = p)).map (fun e => e.2)

def FS.dirExists (fs : FS) (p : FPath) : Bool :=
  fs.dirs.contains p

/-- Names of the entries directly inside directory `p` (Python
`Path(p).iterdir()`, over the files of our model). -/
def FS.iterdirNames (fs : FS) (p : FPath) : List String :=
  fs.files.filterMap (fun e =>
    if e.1 ≠ [] ∧ e.1.dropLast = p then some (e.1.getLastD "") else none)

/-- `mkdir(parents=True, exist_ok=True)`: idempotent creation, or `OSError`
when the environment says so. -/
def mkdirParents (env : Env) (fs : FS) (p : FPath) : FS × Bool :=
  if env.mkdirFails p then (fs, false)
  else ({ fs with dirs := if fs.dirs.contains p then fs.dirs else p :: fs.dirs }, true)

/-- Write (create or overwrite) the file at `p`, or `OSError` when the
environment says so. -/
def writeFile (env : Env) (fs : FS) (p : FPath) (d : FData) : FS × Bool :=
  if env.writeFails p then (fs, false)
  else ({ fs with files := (p, d) :: fs.files.filter (fun e => ¬ e.1 = p) }, true)

/-- Python `str(Path(...))` on our path representation. -/
def pathStr : FPath → String
  | [] => ""
  | [x] => x
  | x :: y :: xs => x ++ "/" ++ pathStr (y :: xs)

/-- Membership in the base64 alphabet. -/
def isB64Char (c : Char) : Bool :=
  ('A' ≤ c && c ≤ 'Z') || ('a' ≤ c && c ≤ 'z') || ('0' ≤ c && c ≤ '9') ||
    c = '+' || c = '/'

/-- Sextet value of a base64 alphabet character. -/
def b64Val (c : Char) : Nat :=
  if 'A' ≤ c ∧ c ≤ 'Z' then c.toNat - 65
  else if 'a' ≤ c ∧ c ≤ 'z' then c.toNat - 71
  else if '0' ≤ c ∧ c ≤ '9' then c.toNat + 4
  else if c = '+' then 62
  else 63

/-- Decode one final 4-character base64 group, honouring `=` padding. -/
def b64Group : List Char → Option (List Nat)
  | [a, b, c, d] =>
    if a = '=' ∨ b = '=' then none
    else if c = '=' then
      if d = '=' then some [b64Val a * 4 + b64Val b / 16] else none
    else if d = '=' then
      let v := b64Val a * 1024 + b64Val b * 16 + b64Val c / 4
      some [v / 256, v % 256]
    else
      let v := b64Val a * 262144 + b64Val b * 4096 + b64Val c * 64 + b64Val d
      some [v / 65536, v / 256 % 256, v % 256]
  | _ => none

/-- Decode a run of 4-character groups; `=` padding is legal only in the last
group, and a trailing group of fewer than 4 characters is a padding error. -/
def b64DecodeGroups : List Char → Option (List Nat)
  | [] => some []
  | a :: b :: c :: d :: rest =>
    if rest.isEmpty then b64Group [a, b, c, d]
    else if a = '=' ∨ b = '=' ∨ c = '=' ∨ d = '=' then none
    else do
      let front ← b64Group [a, b, c, d]
      let back ← b64DecodeGroups rest
      some (front ++ back)
  | _ => none

/-- Embeds `base64.b64decode(s)` (default `validate=False`): characters
outside the alphabet are discarded before decoding, and padding errors raise
`binascii.Error`, modelled as `none`. -/
def b64decode (s : String) : Option (List Nat) :=
  b64DecodeGroups (s.data.filter (fun c => isB64Char c || c = '='))

/- ### The ScreenshotManager and its operations -/

/-- Session identity of the manager: `__init__` stores the conversation
directory and the agent id, and derives `screenshots_dir`. -/
structure ScreenshotManager where
  conversation_dir : FPath
  agent_id : String

def ScreenshotManager.screenshots_dir (m : ScreenshotManager) : FPath :=
  m.conversation_dir ++ ["screenshots"]

/-- Python falsiness of the optional screenshot payload:
`not browser_state_summary.screenshot` is true for `None` and for `""`. -/
def falsyScreenshot : Option String → Bool
  | none => true
  | some s => s.isEmpty

/-- The body of the `try:` block of `save_step_screenshot`: make the
screenshots directory, decode the payload, write the bytes, return the path
string.  The returned `FS` carries whatever mutations happened before an
error. -/
def saveStepScreenshotTry (env : Env) (m : ScreenshotManager) (fs : FS)
    (payload : String) (step_number : Nat) : FS × Except PyErr String :=
  match mkdirParents env fs m.screenshots_dir with
  | (fs1, false) => (fs1, .error (.mkdirErr m.screenshots_dir))
  | (fs1, true) =>
    let screenshot_filename := screenshotFilename m.agent_id step_number
    let screenshot_path := m.screenshots_dir ++ [screenshot_filename]
    match b64decode payload with
    | none => (fs1, .error .binasciiErr)
    | some screenshot_data =>
      match writeFile env fs1 screenshot_path (.bin screenshot_data) with
      | (fs2, false) => (fs2, .error (.writeErr screenshot_path))
      | (fs2, true) => (fs2, .ok (pathStr screenshot_path))

/-- Embeds `save_step_screenshot`: no payload (or an empty one) returns
`None`; otherwise the `try:` body runs and any exception is caught, logged at
warning level, and converted to `None`. -/
def save_step_screenshot (env : Env) (m : ScreenshotManager) (fs : FS)
    (browser_state_summary : BrowserStateSummary) (step_number : Nat) :
    FS × Option String :=
  if falsyScreenshot browser_state_summary.screenshot then (fs, none)
  else
    match saveStepScreenshotTry env m fs
        (browser_state_summary.screenshot.getD "") step_number with
    | (fs1, .ok p) => (fs1, some p)
    | (fs1, .error _) => (fs1, none)

/-- Embeds `_format_conversation_with_screenshot_refs`: a list of lines is
accumulated exactly as the Python appends do, then joined with newlines. -/
def format_conversation_with_screenshot_refs (m : ScreenshotManager)
    (messages : List BaseMessage) (response : AgentOutput)
    (step_number : Nat) : String :=
  let screenshot_ref :=
    "screenshots/" ++ screenshotFilename m.agent_id step_number
  let lines : List String :=
    ["SCREENSHOT: " ++ screenshot_ref, ""]
      ++ messages.flatMap (fun message => [" " ++ message.role ++ " ", message.text, ""])
      ++ [" RESPONSE", jsonDump 0 (modelDumpExcludeUnset response)]
  pyJoin "\n" lines

/-- Embeds `save_conversation_with_screenshots`: the base-directory creation
and the transcript write are NOT inside any `try:` — their failures escape as
`.error`.  The nested screenshot save is the failure-isolated
`save_step_screenshot`. -/
def save_conversation_with_screenshots (env : Env) (m : ScreenshotManager)
    (fs : FS) (input_messages : List BaseMessage) (response : AgentOutput)
    (browser_state_summary : BrowserStateSummary) (step_number : Nat)
    (encoding : Option String) : FS × Except PyErr (String × Option String) :=
  let conversation_filename := conversationFilename m.agent_id step_number
  let conversation_path := m.conversation_dir ++ [conversation_filename]
  match mkdirParents env fs m.conversation_dir with
  | (fs1, false) => (fs1, .error (.mkdirErr m.conversation_dir))
  | (fs1, true) =>
    let conversation_text :=
      format_conversation_with_screenshot_refs m input_messages response step_number
    match writeFile env fs1 conversation_path
        (.txt conversation_text (some (encoding.getD "utf-8"))) with
    | (fs2, false) => (fs2, .error (.writeErr conversation_path))
    | (fs2, true) =>
      let (fs3, screenshot_path) :=
        save_step_screenshot env m fs2 browser_state_summary step_number
      (fs3, .ok (pathStr conversation_path, screenshot_path))

/-- Embeds the free-standing convenience function of the same name: build a
manager for `(target_dir, agent_id)` and delegate. -/
def save_conversation_with_screenshots_fn (env : Env) (fs : FS)
    (input_messages : List BaseMessage) (response : AgentOutput)
    (browser_state_summary : BrowserStateSummary) (target_dir : FPath)
    (agent_id : String) (step_number : Nat) (encoding : Option String) :
    FS × Except PyErr (String × Option String) :=
  save_conversation_with_screenshots env ⟨target_dir, agent_id⟩ fs
    input_messages response browser_state_summary step_number encoding

/- ### create_screenshot_index -/

/-- Embeds `pathlib`'s `Path(name).suffix`: the part of the name from its
last dot on, empty when the dot is absent, leading, or trailing. -/
def pySuffix (name : List Char) : List Char :=
  let r := name.reverse
  match r.findIdx? (fun c => c = '.') with
  | none => []
  | some j =>
    if 1 ≤ j ∧ j + 1 < name.length then '.' :: (r.take j).reverse else []

/-- The filter of `create_screenshot_index`:
`path.suffix == ".png" and path.name.startswith(f"screenshot_{agent_id}_")`. -/
def screenshotNameMatches (agentId : String) (name : String) : Bool :=
  pySuffix name.data = ".png".data &&
    ("screenshot_" ++ agentId ++ "_").data.isPrefixOf name.data

/-- The selection loop of `create_screenshot_index`: names in the screenshots
directory passing the suffix/prefix filter, in directory order. -/
def selectScreenshotNames (m : ScreenshotManager) (fs : FS) : List String :=
  (fs.iterdirNames m.screenshots_dir).filter (screenshotNameMatches m.agent_id)

/-- Embeds `screenshot_files.sort(key=lambda x: int(x.split("_")[-1].split(".")[0]))`:
every key is computed (any failure raises `ValueError`, modelled as `none`),
then a stable sort ascending by key. -/
def sortScreenshotFiles? (names : List String) : Option (List String) :=
  (names.mapM (fun nm => (screenshotSortKey? nm).map (fun k => (nm, k)))).map
    (fun pairs => (pairs.mergeSort (fun x y => x.2 ≤ y.2)).map (fun e => e.1))

/-- The entry line written for one screenshot: the step segment is re-used as
the raw string parsed out of the filename. -/
def indexEntryLine (name : String) : String :=
  "Step " ++ String.mk (pyHeadSplit '.' (pyLastSplit '_' name.data)) ++ ": " ++ name

/-- The full index text: title, blank, agent line, count line, blank, then
one entry per screenshot, newline-joined. -/
def indexContent (agentId : String) (sortedNames : List String) : String :=
  pyJoin "\n" (["# Screenshot Index", "", "Agent ID: " ++ agentId,
    "Total Screenshots: " ++ natStr sortedNames.length, ""]
      ++ sortedNames.map indexEntryLine)

/-- The body of the `try:` block of `create_screenshot_index`. -/
def createScreenshotIndexTry (env : Env) (m : ScreenshotManager) (fs : FS) :
    FS × Except PyErr Unit :=
  if ¬ fs.dirExists m.screenshots_dir then (fs, .ok ())
  else
    let screenshot_files := selectScreenshotNames m fs
    if screenshot_files.isEmpty then (fs, .ok ())
    else
      match sortScreenshotFiles? screenshot_files with
      | none => (fs, .error .valueErr)
      | some sortedFiles =>
        let index_path := m.screenshots_dir ++ ["index.md"]
        match writeFile env fs index_path
            (.txt (indexContent m.agent_id sortedFiles) none) with
        | (fs1, false) => (fs1, .error (.writeErr index_path))
        | (fs1, true) => (fs1, .ok ())

/-- Embeds `create_screenshot_index`: the whole body is wrapped in
`try/except Exception`, so every error is caught and logged at warning
level; the caller always gets a normal return. -/
def create_screenshot_index (env : Env) (m : ScreenshotManager) (fs : FS) : FS :=
  (createScreenshotIndexTry env m fs).1

/- ### Spec-side restatement of the transcript format (for claim C1) -/

/-- Transcript text as the SPEC words it: the screenshot line, a blank line,
per message a ` role ` line, a text line and a blank line, then ` RESPONSE`
and the serialized response — all joined by single newlines with no trailing
newline beyond the join. -/
def transcriptSpec (agentId : String) (stepNumber : Nat)
    (messages : List BaseMessage) (response : AgentOutput) : String :=
  "SCREENSHOT: screenshots/screenshot_" ++ agentId ++ "_" ++ natStr stepNumber
      ++ ".png" ++ "\n" ++ "\n"
    ++ String.join (messages.map (fun m =>
        " " ++ m.role ++ " " ++ "\n" ++ m.text ++ "\n" ++ "\n"))
    ++ " RESPONSE" ++ "\n" ++ jsonDump 0 (modelDumpExcludeUnset response)

theorem pyJoin_cons (sep x : String) {l : List String} (h : l ≠ []) :
    pyJoin sep (x :: l) = x ++ sep ++ pyJoin sep l := by
  match l, h with
  | y :: ys, _ => rfl

theorem pyJoin_blocks (messages : List BaseMessage) (t1 t2 : String) :
    pyJoin "\n" (messages.flatMap
        (fun m => [" " ++ m.role ++ " ", m.text, ""]) ++ [t1, t2]) =
      String.join (messages.map (fun m =>
        " " ++ m.role ++ " " ++ "\n" ++ m.text ++ "\n" ++ "\n"))
        ++ (t1 ++ "\n" ++ t2) := by
  induction messages with
  | nil => simp [pyJoin, String.join]
  | cons m ms ih =>
    rw [List.flatMap_cons, List.append_assoc]
    simp only [List.cons_append, List.nil_append]
    rw [pyJoin_cons _ _ (by simp), pyJoin_cons _ _ (by simp),
      pyJoin_cons _ _ (by simp)]
    rw [ih]
    apply String.ext
    simp [String.join_eq, String.data_append]

/-- C1 (confirmed): for every agent id, step number, message list and
response, the transcript produced by
`_format_conversation_with_screenshot_refs` is exactly the screenshot
reference line, a blank line, per message a ` role ` line, the text line and
a blank line, then ` RESPONSE` and the response serialized as JSON with
unset fields omitted at 2-space indentation, all newline-joined with no
trailing newline. -/
theorem claim_C1_transcript_format (m : ScreenshotManager)
    (messages : List BaseMessage) (response : AgentOutput) (stepNumber : Nat) :
    format_conversation_with_screenshot_refs m messages response stepNumber =
      transcriptSpec m.agent_id stepNumber messages response := by
  rw [format_conversation_with_screenshot_refs]
  simp only [List.cons_append, List.nil_append]
  rw [pyJoin_cons _ _ (by simp), pyJoin_cons _ _ (by simp), pyJoin_blocks]
  rw [transcriptSpec, screenshotFilename]
  apply String.ext
  have e1 : ("SCREENSHOT: screenshots/screenshot_" : String).data =
      "SCREENSHOT: ".data ++ ("screenshots/".data ++ "screenshot_".data) := rfl
  have e0 : ("" : String).data = ([] : List Char) := rfl
  simp [String.data_append, e1, e0]

/- ### Helper lemmas about save_step_screenshot -/

theorem falsyScreenshot_some_false {p : String} (h : p ≠ "") :
    falsyScreenshot (some p) = false := by
  rw [falsyScreenshot]
  cases hp : p.isEmpty
  · rfl
  · exact absurd ((String.isEmpty_iff p).mp hp) h

theorem save_step_screenshot_of_try_error {env : Env} {m : ScreenshotManager}
    {fs fs1 : FS} {s : BrowserStateSummary} {n : Nat} {e : PyErr}
    (hfal : falsyScreenshot s.screenshot = false)
    (htry : saveStepScreenshotTry env m fs (s.screenshot.getD "") n = (fs1, .error e)) :
    save_step_screenshot env m fs s n = (fs1, none) := by
  rw [save_step_screenshot, if_neg (by simp [hfal]), htry]

theorem saveStepScreenshotTry_decode_fail (env : Env) (m : ScreenshotManager)
    (fs : FS) {p : String} (n : Nat) (hdec : b64decode p = none) :
    ∃ fs1 e, saveStepScreenshotTry env m fs p n = (fs1, .error e) := by
  rw [saveStepScreenshotTry]
  cases hmk : mkdirParents env fs m.screenshots_dir with
  | mk fs1 ok =>
    cases ok
    · exact ⟨fs1, .mkdirErr m.screenshots_dir, rfl⟩
    · rw [hdec]
      exact ⟨fs1, .binasciiErr, rfl⟩

/-- C10 (confirmed, implicit claim): an empty-string screenshot payload is
treated exactly like an absent one — `save_step_screenshot` returns `None`
at once, with the filesystem untouched (no directory created, no file
written, no decode attempted). -/
theorem claim_C10_empty_payload_noop (env : Env) (m : ScreenshotManager)
    (fs : FS) (n : Nat) :
    save_step_screenshot env m fs ⟨some ""⟩ n = (fs, none) := by
  rw [save_step_screenshot]
  rfl

/-- C2 (confirmed): `save_step_screenshot` never propagates an error — any
error raised inside its `try:` body (directory creation, base64 decoding,
file writing) is caught and converted to `None`; in particular an invalid
(non-base64) payload yields `None` rather than an exception. -/
theorem claim_C2_save_screenshot_never_raises (env : Env)
    (m : ScreenshotManager) (fs : FS) (s : BrowserStateSummary) (n : Nat) :
    (∀ fs1 e, falsyScreenshot s.screenshot = false →
      saveStepScreenshotTry env m fs (s.screenshot.getD "") n = (fs1, .error e) →
      save_step_screenshot env m fs s n = (fs1, none)) ∧
    (∀ p, s.screenshot = some p → p ≠ "" → b64decode p = none →
      (save_step_screenshot env m fs s n).2 = none) := by
  constructor
  · intro fs1 e hfal htry
    exact save_step_screenshot_of_try_error hfal htry
  · intro p hp hpne hdec
    have hfal : falsyScreenshot s.screenshot = false := by
      rw [hp]; exact falsyScreenshot_some_false hpne
    have hdec2 : b64decode (s.screenshot.getD "") = none := by
      rw [hp, Option.getD_some]
      exact hdec
    obtain ⟨fs1, e, htry⟩ :=
      saveStepScreenshotTry_decode_fail env m fs n hdec2
    rw [save_step_screenshot_of_try_error hfal htry]

/-- C2 witness: with agent `B`, an empty filesystem and the invalid base64
payload `"a"`, the operation returns no result. -/
theorem claim_C2_witness :
    (save_step_screenshot envOk ⟨["c"], "B"⟩ ⟨[], []⟩ ⟨some "a"⟩ 0).2 = none :=
  (claim_C2_save_screenshot_never_raises envOk ⟨["c"], "B"⟩ ⟨[], []⟩
    ⟨some "a"⟩ 0).2 "a" rfl (by decide) (by decide)

theorem mkdirParents_eq {env : Env} {fs : FS} {p : FPath}
    (hmk : env.mkdirFails p = false) :
    mkdirParents env fs p =
      ({ fs with dirs := if fs.dirs.contains p then fs.dirs else p :: fs.dirs },
        true) := by
  rw [mkdirParents, if_neg (by simp [hmk])]

theorem writeFile_eq {env : Env} {fs : FS} {p : FPath} {d : FData}
    (hw : env.writeFails p = false) :
    writeFile env fs p d =
      ({ fs with files := (p, d) :: fs.files.filter (fun e => ¬ e.1 = p) },
        true) := by
  rw [writeFile, if_neg (by simp [hw])]

theorem fileAt_writeFile {env : Env} {fs : FS} {p : FPath} {d : FData}
    (hw : env.writeFails p = false) :
    ((writeFile env fs p d).1).fileAt p = some d := by
  rw [writeFile_eq hw]
  simp [FS.fileAt, List.find?]

theorem saveStepScreenshotTry_ok {env : Env} {m : ScreenshotManager}
    {fs : FS} {p : String} {n : Nat} {data : List Nat}
    (hmk : env.mkdirFails m.screenshots_dir = false)
    (hdec : b64decode p = some data)
    (hw : env.writeFails
      (m.screenshots_dir ++ [screenshotFilename m.agent_id n]) = false) :
    saveStepScreenshotTry env m fs p n =
      ((writeFile env (mkdirParents env fs m.screenshots_dir).1
          (m.screenshots_dir ++ [screenshotFilename m.agent_id n])
          (.bin data)).1,
        .ok (pathStr (m.screenshots_dir ++ [screenshotFilename m.agent_id n]))) := by
  rw [saveStepScreenshotTry, mkdirParents_eq hmk]
  dsimp only
  rw [hdec]
  dsimp only
  rw [writeFile_eq hw]

/-- C6 (confirmed): with no screenshot payload `save_step_screenshot` returns
`None` and leaves the filesystem untouched; with a payload that decodes (and
no filesystem failure) it writes the base64-decoded bytes to
`screenshot_{agentId}_{stepNumber}.png` under the screenshots subdirectory
and returns that path as a string; and the example payload `"aGVsbG8="`
decodes to the bytes of `"hello"`. -/
theorem claim_C6_save_screenshot_behavior (env : Env) (m : ScreenshotManager)
    (fs : FS) (n : Nat) :
    (save_step_screenshot env m fs ⟨none⟩ n = (fs, none)) ∧
    (∀ p data, p ≠ "" → b64decode p = some data →
      env.mkdirFails m.screenshots_dir = false →
      env.writeFails
        (m.screenshots_dir ++ [screenshotFilename m.agent_id n]) = false →
      (save_step_screenshot env m fs ⟨some p⟩ n).2 =
        some (pathStr (m.screenshots_dir ++ [screenshotFilename m.agent_id n])) ∧
      ((save_step_screenshot env m fs ⟨some p⟩ n).1).fileAt
        (m.screenshots_dir ++ [screenshotFilename m.agent_id n]) =
          some (.bin data)) ∧
    (b64decode "aGVsbG8=" = some [104, 101, 108, 108, 111]) := by
  refine ⟨rfl, ?_, by decide⟩
  intro p data hpne hdec hmk hw
  have hfal : falsyScreenshot (some p) = false := falsyScreenshot_some_false hpne
  have hsave : save_step_screenshot env m fs ⟨some p⟩ n =
      ((writeFile env (mkdirParents env fs m.screenshots_dir).1
          (m.screenshots_dir ++ [screenshotFilename m.agent_id n])
          (.bin data)).1,
        some (pathStr (m.screenshots_dir ++ [screenshotFilename m.agent_id n]))) := by
    rw [save_step_screenshot, if_neg (by simp [hfal])]
    rw [show ((⟨some p⟩ : BrowserStateSummary).screenshot.getD "") = p from rfl]
    rw [saveStepScreenshotTry_ok hmk hdec hw]
  rw [hsave]
  exact ⟨rfl, fileAt_writeFile hw⟩

/-- C6 witness: agent `B`, step 3, payload `"aGVsbG8="` on an empty
filesystem: the returned path and the written bytes are as claimed. -/
theorem claim_C6_witness :
    (save_step_screenshot envOk ⟨["c"], "B"⟩ ⟨[], []⟩ ⟨some "aGVsbG8="⟩ 3).2 =
      some (pathStr ((⟨["c"], "B"⟩ : ScreenshotManager).screenshots_dir
        ++ [screenshotFilename "B" 3])) ∧
    ((save_step_screenshot envOk ⟨["c"], "B"⟩ ⟨[], []⟩ ⟨some "aGVsbG8="⟩ 3).1).fileAt
      ((⟨["c"], "B"⟩ : ScreenshotManager).screenshots_dir
        ++ [screenshotFilename "B" 3]) = some (.bin [104, 101, 108, 108, 111]) :=
  ((claim_C6_save_screenshot_behavior envOk ⟨["c"], "B"⟩ ⟨[], []⟩ 3).2.1
    "aGVsbG8=" [104, 101, 108, 108, 111] (by decide) (by decide) rfl rfl)

/- ### Claim C3: error tiers of save_conversation_with_screenshots -/

theorem pathStr_concat_length (dir : FPath) (f : String) (hf : 0 < f.length) :
    0 < (pathStr (dir ++ [f])).length := by
  cases dir with
  | nil => exact hf
  | cons x xs =>
    cases h : xs ++ [f] with
    | nil => simp at h
    | cons y ys =>
      simp only [List.cons_append, h, pathStr, String.length_append]
      have : 0 < ("/" : String).length := by decide
      omega

theorem conversationFilename_length (a : String) (n : Nat) :
    0 < (conversationFilename a n).length := by
  simp only [conversationFilename, String.length_append]
  have : ("conversation_" : String).length = 13 := rfl
  omega

/-- C3 (confirmed): `save_conversation_with_screenshots` either propagates an
error from base-directory creation or from the transcript write (the fatal
tier), or returns normally with a first component that is exactly the
conversation file path, a non-empty string; the nested screenshot save never
causes an error (it can only make the second component `None`). -/
theorem claim_C3_conversation_error_tiers (env : Env) (m : ScreenshotManager)
    (fs : FS) (input_messages : List BaseMessage) (response : AgentOutput)
    (s : BrowserStateSummary) (n : Nat) (encoding : Option String) :
    (∀ fs1 e, save_conversation_with_screenshots env m fs input_messages
        response s n encoding = (fs1, .error e) →
      e = .mkdirErr m.conversation_dir ∨
        e = .writeErr (m.conversation_dir ++ [conversationFilename m.agent_id n])) ∧
    (∀ fs1 p sp, save_conversation_with_screenshots env m fs input_messages
        response s n encoding = (fs1, .ok (p, sp)) →
      p = pathStr (m.conversation_dir ++ [conversationFilename m.agent_id n]) ∧
        p ≠ "") := by
  rw [save_conversation_with_screenshots]
  cases hmk : mkdirParents env fs m.conversation_dir with
  | mk fs1 ok1 =>
    cases ok1
    · dsimp only
      refine ⟨fun fs3 e he => ?_, fun fs3 p sp hok => ?_⟩
      · injection he with h1 h2
        injection h2 with h3
        exact .inl h3.symm
      · injection hok with h1 h2
        exact Except.noConfusion h2
    · dsimp only
      cases hwr : writeFile env fs1
          (m.conversation_dir ++ [conversationFilename m.agent_id n])
          (.txt (format_conversation_with_screenshot_refs m input_messages
            response n) (some (encoding.getD "utf-8"))) with
      | mk fs2 ok2 =>
        cases ok2
        · dsimp only
          refine ⟨fun fs3 e he => ?_, fun fs3 p sp hok => ?_⟩
          · injection he with h1 h2
            injection h2 with h3
            exact .inr h3.symm
          · injection hok with h1 h2
            exact Except.noConfusion h2
        · dsimp only
          cases hsv : save_step_screenshot env m fs2 s n with
          | mk fs4 r =>
            refine ⟨fun fs3 e he => ?_, fun fs3 p sp hok => ?_⟩
            · injection he with h1 h2
              exact Except.noConfusion h2
            · injection hok with h1 h2
              injection h2 with h3
              have hp : p = pathStr
                  (m.conversation_dir ++ [conversationFilename m.agent_id n]) := by
                have := congrArg Prod.fst h3.symm
                simpa using this
              refine ⟨hp, ?_⟩
              intro hemp
              have hlen := pathStr_concat_length m.conversation_dir
                (conversationFilename m.agent_id n)
                (conversationFilename_length m.agent_id n)
              rw [← hp, hemp] at hlen
              simp at hlen

/-- C3 witness: in an environment where every directory creation fails, the
call on agent `B` propagates exactly the fatal mkdir error for the base
directory. -/
theorem claim_C3_witness :
    PyErr.mkdirErr [("c" : String)] = .mkdirErr ["c"] ∨
      PyErr.mkdirErr [("c" : String)] =
        .writeErr (["c"] ++ [conversationFilename "B" 0]) :=
  (claim_C3_conversation_error_tiers ⟨fun _ => true, fun _ => true⟩
      ⟨["c"], "B"⟩ ⟨[], []⟩ [] ⟨[]⟩ ⟨none⟩ 0 none).1
    ⟨[], []⟩ (.mkdirErr ["c"]) rfl

/- ### Claim C9: injectivity of artifact file names -/

theorem conversationFilename_data (agentId : String) (stepNumber : Nat) :
    (conversationFilename agentId stepNumber).data =
      ("conversation_".data ++ agentId.data) ++
        '_' :: (natDigits stepNumber ++ '.' :: "txt".data) := by
  simp [conversationFilename, natStr, String.data_append]

/-- C9 (confirmed): for the same artifact kind, distinct `(agentId,
stepNumber)` pairs give distinct file names — `screenshot_{agentId}_{n}.png`
and `conversation_{agentId}_{n}.txt` are injective in both arguments, even
when the agent id itself contains underscores. -/
theorem claim_C9_filename_injective (a b : String) (n k : Nat) :
    (screenshotFilename a n = screenshotFilename b k → a = b ∧ n = k) ∧
    (conversationFilename a n = conversationFilename b k → a = b ∧ n = k) := by
  constructor
  · intro h
    have hd := congrArg String.data h
    rw [screenshotFilename_data, screenshotFilename_data] at hd
    rw [List.append_assoc, List.append_assoc] at hd
    exact affix_name_inj hd
  · intro h
    have hd := congrArg String.data h
    rw [conversationFilename_data, conversationFilename_data] at hd
    rw [List.append_assoc, List.append_assoc] at hd
    exact affix_name_inj hd

/-- C9 witness: instantiated at the underscore-bearing agent id `x_1` and
step 2 for both sides. -/
theorem claim_C9_witness : ("x_1" : String) = "x_1" ∧ (2 : Nat) = 2 :=
  (claim_C9_filename_injective "x_1" "x_1" 2 2).1 rfl

/- ### Helper lemmas for the index claims -/

theorem save_step_screenshot_ok {env : Env} {m : ScreenshotManager} {fs : FS}
    {p : String} {n : Nat} {data : List Nat}
    (hpne : p ≠ "") (hdec : b64decode p = some data)
    (hmk : env.mkdirFails m.screenshots_dir = false)
    (hw : env.writeFails
      (m.screenshots_dir ++ [screenshotFilename m.agent_id n]) = false) :
    save_step_screenshot env m fs ⟨some p⟩ n =
      ((writeFile env (mkdirParents env fs m.screenshots_dir).1
          (m.screenshots_dir ++ [screenshotFilename m.agent_id n])
          (.bin data)).1,
        some (pathStr (m.screenshots_dir ++ [screenshotFilename m.agent_id n]))) := by
  rw [save_step_screenshot,
    if_neg (by simp [falsyScreenshot_some_false hpne])]
  rw [show ((⟨some p⟩ : BrowserStateSummary).screenshot.getD "") = p from rfl]
  rw [saveStepScreenshotTry_ok hmk hdec hw]

theorem dirs_writeFile (env : Env) (fs : FS) (p : FPath) (d : FData) :
    ((writeFile env fs p d).1).dirs = fs.dirs := by
  rw [writeFile]
  split <;> rfl

theorem dirExists_after_mkdir {env : Env} {fs : FS} {p : FPath}
    (hmk : env.mkdirFails p = false) :
    ((mkdirParents env fs p).1).dirExists p = true := by
  rw [mkdirParents_eq hmk]
  by_cases h : p ∈ fs.dirs <;> simp [FS.dirExists, h]

theorem iterdirNames_write_fresh {env : Env} {fs : FS} {dir : FPath}
    {name : String} {d : FData}
    (hw : env.writeFails (dir ++ [name]) = false)
    (hempty : fs.iterdirNames dir = []) :
    ((writeFile env fs (dir ++ [name]) d).1).iterdirNames dir = [name] := by
  rw [writeFile_eq hw]
  rw [FS.iterdirNames] at hempty ⊢
  simp only [List.filterMap_cons]
  rw [if_pos ⟨by simp, by simp⟩]
  have htail : ∀ e ∈ fs.files.filter (fun e => ¬ e.1 = dir ++ [name]),
      (if e.1 ≠ [] ∧ e.1.dropLast = dir
        then some (e.1.getLastD "") else none) = none := fun e he =>
    (List.filterMap_eq_nil_iff.mp hempty) e (List.mem_of_mem_filter he)
  rw [List.filterMap_eq_nil_iff.mpr htail]
  rw [List.getLastD_concat]

theorem pySuffix_dot_png {base : List Char} (hne : base ≠ []) :
    pySuffix (base ++ '.' :: ['p', 'n', 'g']) = '.' :: ['p', 'n', 'g'] := by
  rw [pySuffix]
  have hrev : (base ++ '.' :: ['p', 'n', 'g']).reverse =
      'g' :: 'n' :: 'p' :: '.' :: base.reverse := by
    simp
  rw [hrev]
  have hfind : ('g' :: 'n' :: 'p' :: '.' :: base.reverse).findIdx?
      (fun c => c = '.') = some 3 := by
    simp [List.findIdx?_cons]
  rw [hfind]
  have hlen : 1 ≤ 3 ∧ 3 + 1 < (base ++ '.' :: ['p', 'n', 'g']).length := by
    refine ⟨by omega, ?_⟩
    have : 1 ≤ base.length := List.length_pos.mpr hne
    simp only [List.length_append, List.length_cons]
    omega
  dsimp only
  rw [if_pos hlen]
  rfl

theorem screenshotNameMatches_canonical (aid : String) (n : Nat) :
    screenshotNameMatches aid (screenshotFilename aid n) = true := by
  rw [screenshotNameMatches]
  rw [Bool.and_eq_true]
  constructor
  · rw [decide_eq_true_eq, screenshotFilename_data]
    have h : ("screenshot_".data ++ aid.data) ++
        '_' :: (natDigits n ++ '.' :: "png".data) =
        (("screenshot_".data ++ aid.data) ++ '_' :: natDigits n) ++
          '.' :: ['p', 'n', 'g'] := by
      simp [List.append_assoc]
    rw [h, pySuffix_dot_png (by simp)]
  · rw [ List.isPrefixOf_iff_prefix, screenshotFilename_data]
    refine ⟨natDigits n ++ '.' :: "png".data, ?_⟩
    have h : ("screenshot_" ++ aid ++ "_").data =
        ("screenshot_".data ++ aid.data) ++ ['_'] := by
      simp [String.data_append]
    rw [h]
    simp

theorem parse_segment_canonical (aid : String) (n : Nat) :
    pyHeadSplit '.' (pyLastSplit '_' (screenshotFilename aid n).data) =
      natDigits n := by
  rw [screenshotFilename_data]
  have hlast : pyLastSplit '_'
      (("screenshot_".data ++ aid.data) ++
        '_' :: (natDigits n ++ '.' :: "png".data)) =
      natDigits n ++ '.' :: "png".data := by
    apply pyLastSplit_append
    intro hmem
    rcases List.mem_append.mp hmem with h1 | h2
    · have := natDigits_all_digit n _ h1
      simp [Char.isDigit] at this
    · revert h2
      decide
  rw [hlast]
  apply pyHeadSplit_append
  intro hmem
  have := natDigits_all_digit n _ hmem
  simp [Char.isDigit] at this

theorem indexEntryLine_canonical (aid : String) (n : Nat) :
    indexEntryLine (screenshotFilename aid n) =
      "Step " ++ natStr n ++ ": " ++ screenshotFilename aid n := by
  rw [indexEntryLine, parse_segment_canonical]
  rfl

theorem mapM_option_eq_none {α β : Type} {f : α → Option β} {l : List α}
    (h : ∃ x ∈ l, f x = none) : l.mapM f = none := by
  induction l with
  | nil => simp at h
  | cons a as ih =>
    rcases h with ⟨x, hx, hfx⟩
    rw [List.mapM_cons]
    rcases List.mem_cons.mp hx with rfl | hmem
    · rw [hfx]
      rfl
    · cases hfa : f a with
      | none => rfl
      | some b =>
        rw [ih ⟨x, hmem, hfx⟩]
        rfl

theorem sortScreenshotFiles?_none {names : List String}
    (h : ∃ nm ∈ names, screenshotSortKey? nm = none) :
    sortScreenshotFiles? names = none := by
  rw [sortScreenshotFiles?]
  rw [mapM_option_eq_none (f := fun nm =>
    (screenshotSortKey? nm).map (fun k => (nm, k)))]
  · rfl
  · rcases h with ⟨nm, hm, hk⟩
    exact ⟨nm, hm, by rw [hk]; rfl⟩

theorem mapM_key_pairs {sel : List String}
    (h : ∀ nm ∈ sel, ∃ k, screenshotSortKey? nm = some k) :
    ∃ pairs : List (String × Int),
      sel.mapM (fun nm => (screenshotSortKey? nm).map (fun k => (nm, k))) =
        some pairs ∧
      pairs.map Prod.fst = sel ∧
      ∀ pr ∈ pairs, screenshotSortKey? pr.1 = some pr.2 := by
  induction sel with
  | nil => exact ⟨[], rfl, rfl, by simp⟩
  | cons a as ih =>
    obtain ⟨k, hk⟩ := h a (List.mem_cons_self a as)
    obtain ⟨pairs, hmap, hfst, hall⟩ :=
      ih (fun nm hm => h nm (List.mem_cons_of_mem a hm))
    refine ⟨(a, k) :: pairs, ?_, by simp [hfst], ?_⟩
    · rw [List.mapM_cons, hk, hmap]
      rfl
    · intro pr hpr
      rcases List.mem_cons.mp hpr with rfl | hm
      · exact hk
      · exact hall pr hm

theorem filterMap_key_of_pairs {pairs : List (String × Int)}
    (h : ∀ pr ∈ pairs, screenshotSortKey? pr.1 = some pr.2) :
    (pairs.map Prod.fst).filterMap screenshotSortKey? = pairs.map Prod.snd := by
  induction pairs with
  | nil => rfl
  | cons pr ps ih =>
    simp only [List.map_cons, List.filterMap_cons]
    rw [h pr (List.mem_cons_self pr ps)]
    rw [ih (fun q hq => h q (List.mem_cons_of_mem pr hq))]

theorem sortScreenshotFiles?_canonical {sel : List String}
    (h : ∀ nm ∈ sel, ∃ k, screenshotSortKey? nm = some k) :
    ∃ sortedNames,
      sortScreenshotFiles? sel = some sortedNames ∧
      sortedNames.Perm sel ∧
      (sortedNames.filterMap screenshotSortKey?).Pairwise (· ≤ ·) := by
  obtain ⟨pairs, hmap, hfst, hall⟩ := mapM_key_pairs h
  refine ⟨(pairs.mergeSort (fun x y => x.2 ≤ y.2)).map Prod.fst, ?_, ?_, ?_⟩
  · rw [sortScreenshotFiles?, hmap]
    rfl
  · rw [← hfst]
    exact (List.mergeSort_perm pairs _).map Prod.fst
  · have hall2 : ∀ pr ∈ pairs.mergeSort (fun x y => x.2 ≤ y.2),
        screenshotSortKey? pr.1 = some pr.2 := fun pr hpr =>
      hall pr (List.mem_mergeSort.mp hpr)
    rw [filterMap_key_of_pairs hall2]
    have hsorted : List.Pairwise
        (fun x y : String × Int => decide (x.2 ≤ y.2) = true)
        (pairs.mergeSort (fun x y : String × Int => decide (x.2 ≤ y.2))) :=
      List.sorted_mergeSort
        (fun a b c hab hbc => by
          simp only [decide_eq_true_eq] at *
          omega)
        (fun a b => by
          by_cases hab : a.2 ≤ b.2
          · simp [hab]
          · simp [hab]
            omega)
        pairs
    rw [List.pairwise_map]
    exact hsorted.imp (fun h => by simpa using h)

/-- C8 (confirmed): `create_screenshot_index` returns silently, writing and
creating nothing, both when the screenshots subdirectory does not exist and
when the selection of matching screenshot files is empty — the filesystem,
including any pre-existing index file, is returned untouched. -/
theorem claim_C8_index_degenerate_cases (env : Env) (m : ScreenshotManager)
    (fs : FS) :
    (fs.dirExists m.screenshots_dir = false →
      create_screenshot_index env m fs = fs) ∧
    (selectScreenshotNames m fs = [] →
      create_screenshot_index env m fs = fs) := by
  constructor
  · intro h
    rw [create_screenshot_index, createScreenshotIndexTry, if_pos (by simp [h])]
  · intro h
    rw [create_screenshot_index, createScreenshotIndexTry]
    by_cases hd : fs.dirExists m.screenshots_dir
    · rw [if_neg (by simp [hd])]
      dsimp only
      rw [h]
      rfl
    · rw [if_pos (by simpa using hd)]

/-- C8 witness: a manager over an empty filesystem (no screenshots directory)
returns it unchanged. -/
theorem claim_C8_witness :
    create_screenshot_index envOk ⟨["c"], "B"⟩ ⟨[], []⟩ = ⟨[], []⟩ :=
  (claim_C8_index_degenerate_cases envOk ⟨["c"], "B"⟩ ⟨[], []⟩).1 (by decide)

/-- C7 (counterexample): with two matching file names, the validly named
`screenshot_A_1.png` and the unparseable `screenshot_A_x.png`, the code does
NOT skip the bad name and index the rest — `int("x")` raises inside the sort
key, the outer handler catches it, and no index at all is written: the
filesystem comes back unchanged and `index.md` is absent. -/
theorem claim_C7_counterexample :
    screenshotNameMatches "A" "screenshot_A_x.png" = true ∧
    screenshotNameMatches "A" "screenshot_A_1.png" = true ∧
    screenshotSortKey? "screenshot_A_x.png" = none ∧
    create_screenshot_index envOk ⟨["conv"], "A"⟩
        ⟨[["conv", "screenshots"]],
          [(["conv", "screenshots", "screenshot_A_1.png"], .bin []),
            (["conv", "screenshots", "screenshot_A_x.png"], .bin [])]⟩ =
      ⟨[["conv", "screenshots"]],
        [(["conv", "screenshots", "screenshot_A_1.png"], .bin []),
          (["conv", "screenshots", "screenshot_A_x.png"], .bin [])]⟩ ∧
    (create_screenshot_index envOk ⟨["conv"], "A"⟩
        ⟨[["conv", "screenshots"]],
          [(["conv", "screenshots", "screenshot_A_1.png"], .bin []),
            (["conv", "screenshots", "screenshot_A_x.png"], .bin [])]⟩).fileAt
      ["conv", "screenshots", "index.md"] = none := by
  refine ⟨by decide, by decide, by decide, by decide, by decide⟩

/-- C7 as amended: a matching file name whose step segment does not parse as
an integer makes the WHOLE index rebuild abort — the `ValueError` from the
sort key is caught by the surrounding handler (so nothing propagates to the
caller), no index file is written, and the filesystem is left untouched; the
remaining validly named screenshots are NOT indexed. -/
theorem claim_C7_amended (env : Env) (m : ScreenshotManager) (fs : FS)
    (hbad : ∃ nm ∈ selectScreenshotNames m fs, screenshotSortKey? nm = none) :
    create_screenshot_index env m fs = fs := by
  by_cases hd : fs.dirExists m.screenshots_dir
  · rw [create_screenshot_index, createScreenshotIndexTry, if_neg (by simp [hd])]
    dsimp only
    have hne : (selectScreenshotNames m fs).isEmpty = false := by
      rcases hbad with ⟨nm, hm, _⟩
      simp only [List.isEmpty_eq_false]
      exact List.ne_nil_of_mem hm
    rw [hne, if_neg (by decide), sortScreenshotFiles?_none hbad]
  · rw [create_screenshot_index, createScreenshotIndexTry,
      if_pos (by simpa using hd)]

/-- C7 witness for the amended claim: the concrete two-file directory with
one unparseable name is returned unchanged. -/
theorem claim_C7_witness :
    create_screenshot_index envOk ⟨["conv2"], "A"⟩
        ⟨[["conv2", "screenshots"]],
          [(["conv2", "screenshots", "screenshot_A_x.png"], .bin [])]⟩ =
      ⟨[["conv2", "screenshots"]],
        [(["conv2", "screenshots", "screenshot_A_x.png"], .bin [])]⟩ :=
  claim_C7_amended envOk ⟨["conv2"], "A"⟩ _ (by decide)

/-- C5 (confirmed): for a non-empty selection of module-written screenshot
names, `create_screenshot_index` writes to `{screenshots}/index.md`
(overwriting any previous file there) exactly the title line, a blank line,
the agent line, the count line, a blank line, and one `Step {n}: {name}`
line per screenshot, newline-joined without a trailing newline, with the
entries ordered ascending by the numeric value of the parsed step number. -/
theorem claim_C5_index_content (env : Env) (m : ScreenshotManager) (fs : FS)
    (hd : fs.dirExists m.screenshots_dir = true)
    (hcanon : ∀ nm ∈ selectScreenshotNames m fs,
      ∃ k, nm = screenshotFilename m.agent_id k)
    (hne : selectScreenshotNames m fs ≠ [])
    (hw : env.writeFails (m.screenshots_dir ++ ["index.md"]) = false) :
    ∃ sortedNames,
      sortedNames.Perm (selectScreenshotNames m fs) ∧
      (sortedNames.filterMap screenshotSortKey?).Pairwise (· ≤ ·) ∧
      (create_screenshot_index env m fs).fileAt
          (m.screenshots_dir ++ ["index.md"]) =
        some (.txt (indexContent m.agent_id sortedNames) none) := by
  have hkeys : ∀ nm ∈ selectScreenshotNames m fs,
      ∃ k, screenshotSortKey? nm = some k := by
    intro nm hm
    obtain ⟨k, hk⟩ := hcanon nm hm
    exact ⟨(k : Int), by rw [hk]; exact sortKey_screenshotFilename m.agent_id k⟩
  obtain ⟨sorted, hsort, hperm, hpair⟩ := sortScreenshotFiles?_canonical hkeys
  refine ⟨sorted, hperm, hpair, ?_⟩
  rw [create_screenshot_index, createScreenshotIndexTry, if_neg (by simp [hd])]
  dsimp only
  rw [show (selectScreenshotNames m fs).isEmpty = false from by
    simpa [List.isEmpty_eq_false] using hne]
  rw [if_neg (by decide), hsort]
  dsimp only
  rw [writeFile_eq hw]
  dsimp only
  simp [FS.fileAt, List.find?]

/-- C5 witness: a directory holding `screenshot_A_10.png` and
`screenshot_A_2.png`; the index is written with entries in numeric step
order. -/
theorem claim_C5_witness :
    ∃ sortedNames,
      sortedNames.Perm (selectScreenshotNames ⟨["c"], "A"⟩
        ⟨[["c", "screenshots"]],
          [(["c", "screenshots", "screenshot_A_10.png"], .bin []),
            (["c", "screenshots", "screenshot_A_2.png"], .bin [])]⟩) ∧
      (sortedNames.filterMap screenshotSortKey?).Pairwise (· ≤ ·) ∧
      (create_screenshot_index envOk ⟨["c"], "A"⟩
          ⟨[["c", "screenshots"]],
            [(["c", "screenshots", "screenshot_A_10.png"], .bin []),
              (["c", "screenshots", "screenshot_A_2.png"], .bin [])]⟩).fileAt
          ((⟨["c"], "A"⟩ : ScreenshotManager).screenshots_dir ++ ["index.md"]) =
        some (.txt (indexContent "A" sortedNames) none) := by
  have hd10 : natDigits 10 = ['1', '0'] := by
    rw [natDigits, natDigits]
    decide
  have hd2 : natDigits 2 = ['2'] := by
    rw [natDigits]
    decide
  refine claim_C5_index_content envOk ⟨["c"], "A"⟩ _ (by decide) ?_ (by decide) rfl
  intro nm hm
  have hsel : selectScreenshotNames ⟨["c"], "A"⟩
      ⟨[["c", "screenshots"]],
        [(["c", "screenshots", "screenshot_A_10.png"], .bin []),
          (["c", "screenshots", "screenshot_A_2.png"], .bin [])]⟩ =
      ["screenshot_A_10.png", "screenshot_A_2.png"] := by decide
  rw [hsel] at hm
  rcases List.mem_cons.mp hm with rfl | hm2
  · exact ⟨10, by rw [screenshotFilename, natStr, hd10]; decide⟩
  · rcases List.mem_cons.mp hm2 with rfl | hm3
    · exact ⟨2, by rw [screenshotFilename, natStr, hd2]; decide⟩
    · cases hm3

/-- C4 (confirmed): saving a screenshot for step `N` into a directory with
no prior files and then rebuilding the index produces an `index.md` whose
entry line is `Step N: screenshot_{agentId}_N.png`, and parsing the step
back out of that filename (split on `_`, last segment, split on `.`, first
segment, parse as integer) recovers `N` exactly. -/
theorem claim_C4_index_roundtrip (env : Env) (m : ScreenshotManager) (fs : FS)
    (payload : String) (data : List Nat) (N : Nat)
    (hpay : payload ≠ "") (hdec : b64decode payload = some data)
    (hmk : env.mkdirFails m.screenshots_dir = false)
    (hw1 : env.writeFails
      (m.screenshots_dir ++ [screenshotFilename m.agent_id N]) = false)
    (hw2 : env.writeFails (m.screenshots_dir ++ ["index.md"]) = false)
    (hempty : fs.iterdirNames m.screenshots_dir = []) :
    ∃ fs1,
      save_step_screenshot env m fs ⟨some payload⟩ N =
        (fs1, some (pathStr
          (m.screenshots_dir ++ [screenshotFilename m.agent_id N]))) ∧
      (create_screenshot_index env m fs1).fileAt
          (m.screenshots_dir ++ ["index.md"]) =
        some (.txt (indexContent m.agent_id
          [screenshotFilename m.agent_id N]) none) ∧
      indexEntryLine (screenshotFilename m.agent_id N) =
        "Step " ++ natStr N ++ ": " ++ screenshotFilename m.agent_id N ∧
      screenshotSortKey? (screenshotFilename m.agent_id N) = some (N : Int) := by
  refine ⟨_, save_step_screenshot_ok hpay hdec hmk hw1, ?_,
    indexEntryLine_canonical m.agent_id N,
    sortKey_screenshotFilename m.agent_id N⟩
  have files_mk : ((mkdirParents env fs m.screenshots_dir).1).files =
      fs.files := by
    rw [mkdirParents]
    split <;> rfl
  have hempty1 : ((mkdirParents env fs m.screenshots_dir).1).iterdirNames
      m.screenshots_dir = [] := by
    rw [FS.iterdirNames, files_mk, ← FS.iterdirNames]
    exact hempty
  have hiter1 := iterdirNames_write_fresh (d := .bin data) hw1 hempty1
  have hdir1 : ((writeFile env (mkdirParents env fs m.screenshots_dir).1
      (m.screenshots_dir ++ [screenshotFilename m.agent_id N])
      (.bin data)).1).dirExists m.screenshots_dir = true := by
    rw [FS.dirExists, dirs_writeFile, ← FS.dirExists]
    exact dirExists_after_mkdir hmk
  have hsel1 : selectScreenshotNames m
      ((writeFile env (mkdirParents env fs m.screenshots_dir).1
        (m.screenshots_dir ++ [screenshotFilename m.agent_id N])
        (.bin data)).1) = [screenshotFilename m.agent_id N] := by
    rw [selectScreenshotNames, hiter1]
    simp [List.filter, screenshotNameMatches_canonical]
  have hmapM : [screenshotFilename m.agent_id N].mapM
      (fun nm => (screenshotSortKey? nm).map (fun k => (nm, k))) =
      some [(screenshotFilename m.agent_id N, (N : Int))] := by
    rw [List.mapM_cons, sortKey_screenshotFilename]
    rfl
  have hsort : sortScreenshotFiles? [screenshotFilename m.agent_id N] =
      some [screenshotFilename m.agent_id N] := by
    rw [sortScreenshotFiles?, hmapM]
    simp
  rw [create_screenshot_index, createScreenshotIndexTry,
    if_neg (by simp [hdir1])]
  dsimp only
  rw [show (selectScreenshotNames m
      ((writeFile env (mkdirParents env fs m.screenshots_dir).1
        (m.screenshots_dir ++ [screenshotFilename m.agent_id N])
        (.bin data)).1)).isEmpty = false from by rw [hsel1]; rfl]
  rw [if_neg (by decide), hsel1, hsort]
  dsimp only
  rw [writeFile_eq hw2]
  dsimp only
  simp [FS.fileAt, List.find?]

/-- C4 witness: agent `B`, step 7, payload `"aGVsbG8="`, starting from the
empty filesystem. -/
theorem claim_C4_witness :
    ∃ fs1,
      save_step_screenshot envOk ⟨["c"], "B"⟩ ⟨[], []⟩ ⟨some "aGVsbG8="⟩ 7 =
        (fs1, some (pathStr
          ((⟨["c"], "B"⟩ : ScreenshotManager).screenshots_dir
            ++ [screenshotFilename "B" 7]))) ∧
      (create_screenshot_index envOk ⟨["c"], "B"⟩ fs1).fileAt
          ((⟨["c"], "B"⟩ : ScreenshotManager).screenshots_dir ++ ["index.md"]) =
        some (.txt (indexContent "B" [screenshotFilename "B" 7]) none) ∧
      indexEntryLine (screenshotFilename "B" 7) =
        "Step " ++ natStr 7 ++ ": " ++ screenshotFilename "B" 7 ∧
      screenshotSortKey? (screenshotFilename "B" 7) = some (7 : Int) :=
  claim_C4_index_roundtrip envOk ⟨["c"], "B"⟩ ⟨[], []⟩ "aGVsbG8="
    [104, 101, 108, 108, 111] 7 (by decide) (by decide) rfl rfl rfl rfl
